import Mathlib

/-!
Verification of the folder-watcher subsystem of the koemoji repository
(`src/folder_watcher/folder_watcher.py`).

The Python module is shallowly embedded below.  Conventions of the embedding:

* The filesystem is a parameter `FileSys` giving, per path, whether the path
  is a regular file and its size (`none` when `os.path.getsize` would raise).
* External effects that can fail non-deterministically (writing the config
  file, creating the watch directory, starting the watchdog observer) are
  passed in as explicit boolean outcomes (`saveOk`, `mkdir_ok`, `observer_ok`).
* `hashlib.md5(s.encode()).hexdigest()` is an external deterministic digest;
  it is modelled by `md5Hex`, an injective encoding of the digested text
  (determinism is exact; distinctness of distinct inputs is the idealisation
  the source itself relies on for de-duplication).
* The JSON config document is the `Config` structure; the persisted file is
  the `disk : Option Config` field of `Watcher` (`none` = missing/unparsable).
* Python `dict`s (insertion ordered, unique keys) are association lists with
  `dictInsert` replacing in place, as Python key assignment does.
* The single consumer thread of `process_file_queue` is modelled by the
  sequential recursion `process_file_queue_run`; the watchdog event thread's
  handler `on_created` is a function on the queue it mutates.
-/

namespace Koemoji

/-- Association-list lookup, modelling Python `dict.get` (keys are unique,
so first match is the match). -/
def dictLookup {α : Type} : List (String × α) → String → Option α
  | [], _ => none
  | kv :: rest, k => if kv.1 = k then some kv.2 else dictLookup rest k

/-- Key list of an association-list dictionary, modelling `dict.keys()`. -/
def dictKeys {α : Type} (d : List (String × α)) : List String :=
  d.map Prod.fst

/-- Python `d[k] = v`: replace in place when the key exists, append otherwise. -/
def dictInsert {α : Type} (d : List (String × α)) (k : String) (v : α) :
    List (String × α) :=
  if k ∈ dictKeys d then d.map (fun kv => if kv.1 = k then (k, v) else kv)
  else d ++ [(k, v)]

/-- Python `d.update(u)`: fold the updates into `d` one assignment at a time. -/
def dictUpdateMany {α : Type} (d : List (String × α)) (u : List (String × α)) :
    List (String × α) :=
  u.foldl (fun acc kv => dictInsert acc kv.1 kv.2) d

/-- Little-endian base-10 digits, fuelled so that the kernel can evaluate it. -/
def decDigitsAux : Nat → Nat → List Nat
  | 0, _ => []
  | _ + 1, 0 => []
  | fuel + 1, n + 1 => (n + 1) % 10 :: decDigitsAux fuel ((n + 1) / 10)

/-- Little-endian base-10 digits of `n` (empty for `0`). -/
def decDigits (n : Nat) : List Nat := decDigitsAux n n

/-- Model of Python `str(n)` for a non-negative `int`: decimal rendering. -/
def natRepr (n : Nat) : String :=
  if n = 0 then "0" else ⟨((decDigits n).map Nat.digitChar).reverse⟩

/-- Model of the external digest `hashlib.md5(s.encode()).hexdigest()`:
deterministic, and distinct on distinct inputs (the idealisation the
source's size+path de-duplication scheme rests on). -/
def md5Hex (s : String) : String := s

/-- The filesystem as seen through `os.path.isfile` and `os.path.getsize`;
`getsize p = none` models the calls raising (file vanished, permissions). -/
structure FileSys where
  isfile : String → Bool
  getsize : String → Option Nat

/-- `get_file_hash` (folder_watcher.py lines 374-391): fingerprint from
path and size, falling back to the path alone when the size read fails;
totality of the model reflects that every exception is caught. -/
def get_file_hash (fs : FileSys) (file_path : String) : String :=
  match fs.getsize file_path with
  | some file_size => md5Hex (file_path ++ ":" ++ natRepr file_size)
  | none => md5Hex file_path

/-- Basename characters: the suffix of the character list after the last
path separator (the watcher is modelled on a posix separator). -/
def basenameChars (cs : List Char) : List Char :=
  cs.foldl (fun acc c => if c = '/' then [] else acc ++ [c]) []

/-- The suffix of `cs` that starts at its last dot, or `[]` if it has none. -/
def lastDotSuffix (cs : List Char) : List Char :=
  (cs.foldl
    (fun (acc : Option (List Char)) c =>
      match acc with
      | none => if c = '.' then some [c] else none
      | some s => if c = '.' then some [c] else some (s ++ [c]))
    none).getD []

/-- Model of `os.path.splitext(p)[-1]`: the extension of the basename,
where the run of leading dots of the basename never starts an extension. -/
def splitextExt (p : String) : String :=
  ⟨lastDotSuffix ((basenameChars p.data).dropWhile (fun c => c = '.'))⟩

/-- Model of Python `str.lower` on the ASCII extensions the watcher compares. -/
def strToLower (s : String) : String := ⟨s.data.map Char.toLower⟩

/-- A processed-files ledger value: the free-form JSON object stored under a
fingerprint (a `processed_at` timestamp plus optional result fields). -/
abbrev Info : Type := List (String × String)

/-- The JSON configuration document `folder_watcher_config.json`. -/
structure Config where
  input_directory : String
  supported_extensions : List String
  processed_files : List (String × Info)

/-- The `FolderWatcher` instance state together with the persisted file:
`config` is `self.config`, `processed_files` is the in-memory set,
`file_queue` is the pending FIFO, the three booleans are the lifecycle
flags, and `disk` is the on-disk config document. -/
structure Watcher where
  config : Config
  processed_files : List String
  file_queue : List String
  should_stop : Bool
  thread_running : Bool
  observer_running : Bool
  disk : Option Config

/-- The default configuration returned when the config file is missing or
malformed (folder_watcher.py lines 102-111). -/
def default_config : Config :=
  { input_directory := ""
    supported_extensions :=
      [".mp3", ".mp4", ".wav", ".m4a", ".avi", ".mov", ".wmv", ".flac"]
    processed_files := [] }

/-- `load_config` (lines 96-111): parse the persisted document, falling back
to the defaults when it is missing or unreadable. -/
def load_config (disk : Option Config) : Config :=
  disk.getD default_config

/-- `save_config` (lines 113-120): serialize `self.config`; a failing write
is caught and logged, leaving the disk unchanged. -/
def save_config (saveOk : Bool) (w : Watcher) : Watcher :=
  if saveOk then { w with disk := some w.config } else w

/-- `FolderWatcher.__init__` (lines 80-94): load the config and start with an
empty queue, an empty processed set and no running session. -/
def folder_watcher_init (disk : Option Config) : Watcher :=
  { config := load_config disk
    processed_files := []
    file_queue := []
    should_stop := false
    thread_running := false
    observer_running := false
    disk := disk }

/-- `mark_file_as_processed` (lines 122-151): fingerprint the path, build the
entry (`processed_at` plus the optional result fields), store it under the
fingerprint, add the fingerprint to the in-memory set, then save. -/
def mark_file_as_processed (fs : FileSys) (now : String)
    (result_info : Option Info) (saveOk : Bool) (file_path : String)
    (w : Watcher) : Watcher :=
  let file_hash := get_file_hash fs file_path
  let processed_info := dictUpdateMany [("processed_at", now)] (result_info.getD [])
  save_config saveOk
    { w with
      config := { w.config with
        processed_files := dictInsert w.config.processed_files file_hash processed_info }
      processed_files := w.processed_files.insert file_hash }

/-- A watchdog filesystem event as seen by the handler. -/
structure FsEvent where
  is_directory : Bool
  src_path : String

/-- `MediaFileHandler.on_created` (lines 56-74), as its effect on the pending
queue: skip directories, filter by lower-cased extension, drop paths whose
path or current fingerprint is in the processed set, else enqueue. -/
def on_created (supported_extensions : List String)
    (processed_files : List String) (fs : FileSys) (file_queue : List String)
    (event : FsEvent) : List String :=
  if event.is_directory then file_queue
  else
    let file_path := event.src_path
    let ext := strToLower (splitextExt file_path)
    if ext ∈ supported_extensions then
      let file_hash := get_file_hash fs file_path
      if file_path ∈ processed_files ∨ file_hash ∈ processed_files then file_queue
      else file_queue ++ [file_path]
    else file_queue

/-- One listing entry of `check_existing_files` (lines 250-262): join the
name onto the directory, and enqueue it when it is a regular file with an
accepted extension that is not yet processed. -/
def check_existing_step (fs : FileSys) (input_dir : String)
    (extensions : List String) (processed_files : List String)
    (q : List String) (file : String) : List String :=
  let file_path := input_dir ++ "/" ++ file
  if fs.isfile file_path then
    let ext := strToLower (splitextExt file)
    if ext ∈ extensions then
      let file_hash := get_file_hash fs file_path
      if file_path ∈ processed_files ∨ file_hash ∈ processed_files then q
      else q ++ [file_path]
    else q
  else q

/-- `check_existing_files` (lines 240-267): rescan the watch directory on
startup and enqueue the unprocessed files found there. -/
def check_existing_files (fs : FileSys) (dir_exists : Bool)
    (listing : List String) (w : Watcher) : Watcher :=
  let input_dir := w.config.input_directory
  if input_dir = "" ∨ dir_exists = false then w
  else
    { w with
      file_queue :=
        listing.foldl
          (check_existing_step fs input_dir w.config.supported_extensions
            w.processed_files)
          w.file_queue }

/-- The descending-timestamp comparison used by the pruning sort
(lines 283-288): Python `sorted(key=entry timestamp, reverse=True)` is the
stable sort by this boolean relation. -/
def tsGe (a b : String × Info) : Bool :=
  (dictLookup b.2 "processed_at").getD "" ≤ (dictLookup a.2 "processed_at").getD ""

/-- `clean_old_processed_files` (lines 269-297): when the ledger exceeds
`max_entries`, keep the `max_entries` newest entries (stable descending sort
by `processed_at`), save the pruned config and rebuild the in-memory set. -/
def clean_old_processed_files (saveOk : Bool) (max_entries : Nat)
    (w : Watcher) : Watcher :=
  let processed_files := w.config.processed_files
  if processed_files = [] then w
  else if max_entries < processed_files.length then
    let sorted_entries := processed_files.mergeSort tsGe
    let w1 := { w with
      config := { w.config with processed_files := sorted_entries.take max_entries } }
    let w2 := save_config saveOk w1
    { w2 with processed_files := dictKeys w2.config.processed_files }
  else w

/-- The consumer's action on one dequeued, not-yet-processed path
(lines 180-190): call the callback if one is registered (its effect on the
watcher, and whether it raised, are the callback model's two components),
else auto-mark the file as processed. -/
def queue_step (fs : FileSys)
    (cb : Option (String → Watcher → Watcher × Bool)) (now : String)
    (saveOk : Bool) (p : String) (w : Watcher) : Watcher :=
  match cb with
  | some f => (f p w).1
  | none => mark_file_as_processed fs now none saveOk p w

/-- `process_file_queue` (lines 161-202) draining a queue: re-check the
ledger per item, run `queue_step` on survivors, and continue past callback
exceptions (the broad `except` only logs).  Returns the final state and the
ordered trace of paths handed to the callback (or auto-marked). -/
def process_file_queue_run (fs : FileSys)
    (cb : Option (String → Watcher → Watcher × Bool)) (now : String)
    (saveOk : Bool) : List String → Watcher → Watcher × List String
  | [], w => (w, [])
  | p :: rest, w =>
    if p ∈ w.processed_files ∨ get_file_hash fs p ∈ w.processed_files then
      process_file_queue_run fs cb now saveOk rest w
    else
      let r := process_file_queue_run fs cb now saveOk rest (queue_step fs cb now saveOk p w)
      (r.1, p :: r.2)

/-- The run of `process_file_queue` skips no item: at every step the
dequeued path's path and current fingerprint are absent from the in-memory
set (the hypothesis of the FIFO property). -/
def noSkipsB (fs : FileSys) (cb : Option (String → Watcher → Watcher × Bool))
    (now : String) (saveOk : Bool) : List String → Watcher → Bool
  | [], _ => true
  | p :: rest, w =>
    if p ∈ w.processed_files ∨ get_file_hash fs p ∈ w.processed_files then false
    else noSkipsB fs cb now saveOk rest (queue_step fs cb now saveOk p w)

/-- `start_file_watcher` (lines 204-238): fail on a missing input directory
or a failed directory creation; otherwise rebuild the processed set from the
config's ledger keys and start the observer (which may itself fail). -/
def start_file_watcher (dir_exists mkdir_ok observer_ok : Bool)
    (w : Watcher) : Bool × Watcher :=
  let input_dir := w.config.input_directory
  if input_dir = "" then (false, w)
  else if dir_exists = false ∧ mkdir_ok = false then (false, w)
  else
    let w1 := { w with processed_files := dictKeys w.config.processed_files }
    if observer_ok then (true, { w1 with observer_running := true })
    else (false, w1)

/-- `stop` (lines 324-340): set the stop flag, stop the observer and join
the consumer thread (the loop polls the flag with a one-second queue
timeout, so the cooperative join is modelled as completing). -/
def stop (w : Watcher) : Watcher :=
  { w with should_stop := true, observer_running := false, thread_running := false }

/-- `start` (lines 299-322): prune the ledger, spawn the consumer thread,
start the watcher, and on failure tear everything down via `stop`; on
success rescan the directory for pre-existing files. -/
def start (fs : FileSys) (dir_exists mkdir_ok observer_ok saveOk : Bool)
    (listing : List String) (w : Watcher) : Bool × Watcher :=
  let w0 := clean_old_processed_files saveOk 1000 w
  let w1 := { w0 with should_stop := false, thread_running := true }
  let r := start_file_watcher dir_exists mkdir_ok observer_ok w1
  if r.1 then (true, check_existing_files fs (dir_exists || mkdir_ok) listing r.2)
  else (false, stop r.2)

/-- Iterated `mark_file_as_processed` over a list of paths, left to right. -/
def markMany (fs : FileSys) (now : String) (saveOk : Bool)
    (ps : List String) (w : Watcher) : Watcher :=
  ps.foldl (fun acc p => mark_file_as_processed fs now none saveOk p acc) w

/-! ### Helper lemmas about the decimal rendering and the fingerprint -/

theorem decDigitsAux_eq_digits : ∀ (fuel n : Nat), n ≤ fuel →
    decDigitsAux fuel n = Nat.digits 10 n := by
  intro fuel
  induction fuel with
  | zero =>
    intro n hn
    have : n = 0 := Nat.le_zero.mp hn
    subst this
    simp [decDigitsAux]
  | succ fuel ih =>
    intro n hn
    match n with
    | 0 => simp [decDigitsAux]
    | m + 1 =>
      have hdiv : (m + 1) / 10 ≤ fuel :=
        le_trans (Nat.le_of_lt_succ (Nat.div_lt_self (Nat.succ_pos m) (by norm_num)))
          (Nat.le_of_succ_le_succ hn)
      rw [decDigitsAux, ih _ hdiv,
        Nat.digits_def' (by norm_num : (1:ℕ) < 10) (Nat.succ_pos m)]

theorem decDigits_eq_digits (n : Nat) : decDigits n = Nat.digits 10 n :=
  decDigitsAux_eq_digits n n le_rfl

theorem decDigits_lt_ten (n : Nat) : ∀ d ∈ decDigits n, d < 10 := by
  rw [decDigits_eq_digits]
  exact fun d hd => Nat.digits_lt_base (by norm_num) hd

theorem digitChar_inj_lt : ∀ a, a < 10 → ∀ b, b < 10 →
    Nat.digitChar a = Nat.digitChar b → a = b := by decide

theorem map_digitChar_inj : ∀ (l1 l2 : List Nat), (∀ d ∈ l1, d < 10) →
    (∀ d ∈ l2, d < 10) → l1.map Nat.digitChar = l2.map Nat.digitChar → l1 = l2 := by
  intro l1
  induction l1 with
  | nil =>
    intro l2 _ _ h
    cases l2 with
    | nil => rfl
    | cons b bs => simp at h
  | cons a as ih =>
    intro l2 h1 h2 h
    cases l2 with
    | nil => simp at h
    | cons b bs =>
      simp only [List.map_cons, List.cons.injEq] at h
      have hab : a = b :=
        digitChar_inj_lt a (h1 a (by simp)) b (h2 b (by simp)) h.1
      have : as = bs :=
        ih bs (fun d hd => h1 d (by simp [hd])) (fun d hd => h2 d (by simp [hd])) h.2
      rw [hab, this]

theorem natRepr_zero_ne (b : Nat) (hb : b ≠ 0) : natRepr b ≠ "0" := by
  intro h
  have hd : ((decDigits b).map Nat.digitChar).reverse = ['0'] := by
    have := congrArg String.data h
    simpa [natRepr, hb] using this
  have hlen : (decDigits b).length = 1 := by
    have := congrArg List.length hd
    simpa using this
  obtain ⟨d, hdd⟩ := List.length_eq_one.mp hlen
  have hdig : Nat.digits 10 b = [d] := by rw [← decDigits_eq_digits, hdd]
  have hbd : b = d := by
    have h1 := Nat.ofDigits_digits 10 b
    rw [hdig] at h1
    simpa [Nat.ofDigits] using h1.symm
  have hchar : Nat.digitChar d = '0' := by
    rw [hdd] at hd
    simpa using hd
  have : d = 0 :=
    digitChar_inj_lt d (decDigits_lt_ten b d (by simp [hdd])) 0 (by norm_num)
      (by simpa using hchar)
  exact hb (by rw [hbd, this])

theorem natRepr_injective : Function.Injective natRepr := by
  intro a b h
  by_cases ha : a = 0 <;> by_cases hb : b = 0
  · rw [ha, hb]
  · subst ha
    exact absurd (by simpa [natRepr] using h.symm) (natRepr_zero_ne b hb)
  · subst hb
    exact absurd (by simpa [natRepr] using h) (natRepr_zero_ne a ha)
  · have hd := congrArg String.data h
    simp only [natRepr, if_neg ha, if_neg hb] at hd
    have hrev : ((decDigits a).map Nat.digitChar).reverse
        = ((decDigits b).map Nat.digitChar).reverse := hd
    have hmap := List.reverse_injective hrev
    have := map_digitChar_inj _ _ (decDigits_lt_ten a) (decDigits_lt_ten b) hmap
    rwa [decDigits_eq_digits, decDigits_eq_digits, Nat.digits_inj_iff] at this

theorem hash_input_inj (p r1 r2 : String)
    (h : p ++ ":" ++ r1 = p ++ ":" ++ r2) : r1 = r2 := by
  have hd := congrArg String.data h
  simp only [String.data_append] at hd
  exact String.ext (by simpa using hd)

theorem get_file_hash_congr (fs1 fs2 : FileSys) (p : String)
    (h : fs1.getsize p = fs2.getsize p) :
    get_file_hash fs1 p = get_file_hash fs2 p := by
  unfold get_file_hash
  rw [h]

/-! ### Helper lemmas about the dictionary model -/

theorem dictKeys_append {α : Type} (d e : List (String × α)) :
    dictKeys (d ++ e) = dictKeys d ++ dictKeys e := by
  simp [dictKeys]

theorem dictKeys_dictInsert_of_mem {α : Type} (d : List (String × α))
    (k : String) (v : α) (hk : k ∈ dictKeys d) :
    dictKeys (dictInsert d k v) = dictKeys d := by
  unfold dictInsert
  rw [if_pos hk]
  unfold dictKeys
  rw [List.map_map]
  refine List.map_congr_left (fun kv _ => ?_)
  by_cases h1 : kv.1 = k
  · simp [h1]
  · simp [h1]

theorem dictKeys_dictInsert_of_not_mem {α : Type} (d : List (String × α))
    (k : String) (v : α) (hk : k ∉ dictKeys d) :
    dictKeys (dictInsert d k v) = dictKeys d ++ [k] := by
  unfold dictInsert
  rw [if_neg hk, dictKeys_append]
  rfl

theorem mem_dictKeys_dictInsert {α : Type} (d : List (String × α)) (k : String)
    (v : α) (x : String) :
    x ∈ dictKeys (dictInsert d k v) ↔ x ∈ dictKeys d ∨ x = k := by
  by_cases hk : k ∈ dictKeys d
  · rw [dictKeys_dictInsert_of_mem d k v hk]
    constructor
    · exact Or.inl
    · rintro (h | h)
      · exact h
      · exact h ▸ hk
  · rw [dictKeys_dictInsert_of_not_mem d k v hk]
    simp

theorem dictLookup_dictInsert_self {α : Type} (d : List (String × α))
    (k : String) (v : α) : dictLookup (dictInsert d k v) k = some v := by
  unfold dictInsert
  by_cases hk : k ∈ dictKeys d
  · rw [if_pos hk]
    induction d with
    | nil => simp [dictKeys] at hk
    | cons kv rest ih =>
      by_cases h1 : kv.1 = k
      · simp [dictLookup, h1]
      · have hk' : k ∈ dictKeys rest := by
          unfold dictKeys at hk
          simp only [List.map_cons, List.mem_cons] at hk
          rcases hk with h | h
          · exact absurd h.symm h1
          · exact h
        simpa [dictLookup, h1] using ih hk'
  · rw [if_neg hk]
    induction d with
    | nil => simp [dictLookup]
    | cons kv rest ih =>
      have h1 : kv.1 ≠ k := by
        intro hc
        exact hk (by unfold dictKeys; simp [hc])
      have hk' : k ∉ dictKeys rest := by
        intro hc
        exact hk (by unfold dictKeys at hc ⊢; simp [hc])
      simpa [dictLookup, h1] using ih hk'

theorem dictInsert_length {α : Type} (d : List (String × α)) (k : String) (v : α) :
    (dictInsert d k v).length
      = if k ∈ dictKeys d then d.length else d.length + 1 := by
  unfold dictInsert
  by_cases hk : k ∈ dictKeys d <;> simp [hk]

/-- Every path that the startup rescan newly places on the queue has both its
path and its current fingerprint outside the processed set. -/
theorem mem_check_existing_foldl (fs : FileSys) (input_dir : String)
    (exts processed : List String) :
    ∀ (listing q : List String) (x : String),
      x ∈ listing.foldl (check_existing_step fs input_dir exts processed) q →
      x ∈ q ∨ (x ∉ processed ∧ get_file_hash fs x ∉ processed) := by
  intro listing
  induction listing with
  | nil =>
    intro q x hx
    exact Or.inl (by simpa using hx)
  | cons f rest ih =>
    intro q x hx
    rw [List.foldl_cons] at hx
    rcases ih _ x hx with h | h
    · simp only [check_existing_step] at h
      split at h
      · split at h
        · split at h
          · exact Or.inl h
          · rcases List.mem_append.mp h with h4 | h4
            · exact Or.inl h4
            · right
              have hx1 : x = input_dir ++ "/" ++ f := by simpa using h4
              subst hx1
              rename_i h3
              push_neg at h3
              exact h3
        · exact Or.inl h
      · exact Or.inl h
    · exact Or.inr h

/-- A concrete filesystem on which no path is a readable file. -/
def fsNone : FileSys := ⟨fun _ => false, fun _ => none⟩

/-- A concrete one-entry ledger used by the witnesses. -/
def ledger1 : List (String × Info) := [("h1", [("processed_at", "t")])]

/-- Claim C1: for every file whose fingerprint or path is already present in
the processed ledger, neither a filesystem creation event for that file
(`MediaFileHandler.on_created`) nor the startup directory rescan
(`check_existing_files`) pushes its path onto the pending queue (with the
in-memory set holding the ledger's keys, as `start_file_watcher` builds it). -/
theorem C1_ledger_never_reenqueued (fs : FileSys) (ledger : List (String × Info))
    (p : String)
    (hproc : p ∈ dictKeys ledger ∨ get_file_hash fs p ∈ dictKeys ledger) :
    (∀ (exts q : List String) (isdir : Bool),
        on_created exts (dictKeys ledger) fs q ⟨isdir, p⟩ = q) ∧
    (∀ (dir_exists : Bool) (listing : List String) (w : Watcher),
        w.processed_files = dictKeys ledger →
        p ∈ (check_existing_files fs dir_exists listing w).file_queue →
        p ∈ w.file_queue) := by
  constructor
  · intro exts q isdir
    cases isdir
    · by_cases h2 : strToLower (splitextExt p) ∈ exts
      · simp [on_created, h2, hproc]
      · simp [on_created, h2]
    · simp [on_created]
  · intro dir_exists listing w hw hmem
    simp only [check_existing_files] at hmem
    by_cases hg : w.config.input_directory = "" ∨ dir_exists = false
    · rw [if_pos hg] at hmem
      exact hmem
    · rw [if_neg hg] at hmem
      rw [hw] at hmem
      rcases mem_check_existing_foldl fs w.config.input_directory
          w.config.supported_extensions (dictKeys ledger) listing w.file_queue p hmem
        with h | h
      · exact h
      · exact absurd hproc (by push_neg; exact ⟨h.1, h.2⟩)

/-- Witness for C1 at a concrete ledger, filesystem and event. -/
theorem C1_witness :
    on_created [".mp3"] (dictKeys ledger1) fsNone [] ⟨false, "h1"⟩ = [] :=
  (C1_ledger_never_reenqueued fsNone ledger1 "h1" (by decide)).1 [".mp3"] [] false

/-- Modelled from the spec (section 4.2, steps 1, 2, 4, 5): a creation event
is enqueued exactly when it is not a directory event, its lower-cased
extension is accepted, and neither the path nor its current fingerprint is in
the processed set. -/
def should_enqueue (supported_extensions processed_files : List String)
    (fs : FileSys) (event : FsEvent) : Bool :=
  !event.is_directory
    && decide (strToLower (splitextExt event.src_path) ∈ supported_extensions)
    && decide (event.src_path ∉ processed_files)
    && decide (get_file_hash fs event.src_path ∉ processed_files)

/-- Claim C6: `on_created` enqueues the event's path if and only if the event
is not a directory creation, the lower-cased extension is configured, and
neither path nor fingerprint is in the processed set; otherwise the queue is
unchanged. -/
theorem C6_on_created_characterization (supported processed : List String)
    (fs : FileSys) (q : List String) (ev : FsEvent) :
    on_created supported processed fs q ev
      = if should_enqueue supported processed fs ev then q ++ [ev.src_path] else q := by
  unfold on_created should_enqueue
  cases hd : ev.is_directory
  · by_cases h2 : strToLower (splitextExt ev.src_path) ∈ supported
    · by_cases h3 : ev.src_path ∈ processed ∨ get_file_hash fs ev.src_path ∈ processed
      · rcases h3 with h3 | h3 <;>
          simp [h2, h3, decide_eq_true_eq]
      · push_neg at h3
        simp [h2, h3.1, h3.2]
    · simp [h2]
  · simp

/-- Claim C9: the fingerprint is stable for a fixed path and size, differs
across different sizes of the same path, and falls back to a path-only digest
when the size cannot be read (the model's totality reflects that the source
catches every exception there). -/
theorem C9_fingerprint_stability (fs1 fs2 : FileSys) (p : String) :
    (∀ n : Nat, fs1.getsize p = some n → fs2.getsize p = some n →
        get_file_hash fs1 p = get_file_hash fs2 p) ∧
    (∀ n1 n2 : Nat, fs1.getsize p = some n1 → fs2.getsize p = some n2 →
        n1 ≠ n2 → get_file_hash fs1 p ≠ get_file_hash fs2 p) ∧
    (fs1.getsize p = none → get_file_hash fs1 p = md5Hex p) := by
  refine ⟨fun n h1 h2 => get_file_hash_congr _ _ _ (h1.trans h2.symm),
    fun n1 n2 h1 h2 hne hc => ?_,
    fun h1 => by unfold get_file_hash; rw [h1]⟩
  unfold get_file_hash at hc
  rw [h1, h2] at hc
  simp only [md5Hex] at hc
  exact hne (natRepr_injective (hash_input_inj p _ _ hc))

/-- A concrete filesystem where every path has size 5. -/
def fsSize5 : FileSys := ⟨fun _ => true, fun _ => some 5⟩

/-- A concrete filesystem where every path has size 6. -/
def fsSize6 : FileSys := ⟨fun _ => true, fun _ => some 6⟩

/-- Witness for C9 at concrete filesystems and a concrete path. -/
theorem C9_witness :
    get_file_hash fsSize5 "a" = get_file_hash fsSize5 "a"
      ∧ get_file_hash fsSize5 "a" ≠ get_file_hash fsSize6 "a"
      ∧ get_file_hash fsNone "a" = md5Hex "a" :=
  ⟨(C9_fingerprint_stability fsSize5 fsSize5 "a").1 5 rfl rfl,
   (C9_fingerprint_stability fsSize5 fsSize6 "a").2.1 5 6 rfl rfl (by decide),
   (C9_fingerprint_stability fsNone fsNone "a").2.2 rfl⟩

/-! ### Helper lemmas about marking, lifecycle and the processed set -/

theorem mark_config_pf (fs : FileSys) (now : String) (ri : Option Info)
    (saveOk : Bool) (p : String) (w : Watcher) :
    (mark_file_as_processed fs now ri saveOk p w).config.processed_files
      = dictInsert w.config.processed_files (get_file_hash fs p)
          (dictUpdateMany [("processed_at", now)] (ri.getD [])) := by
  cases saveOk <;> rfl

theorem mark_processed_set (fs : FileSys) (now : String) (ri : Option Info)
    (saveOk : Bool) (p : String) (w : Watcher) :
    (mark_file_as_processed fs now ri saveOk p w).processed_files
      = w.processed_files.insert (get_file_hash fs p) := by
  cases saveOk <;> rfl

theorem mark_disk_true (fs : FileSys) (now : String) (ri : Option Info)
    (p : String) (w : Watcher) :
    (mark_file_as_processed fs now ri true p w).disk
      = some (mark_file_as_processed fs now ri true p w).config := rfl

theorem mark_disk_false (fs : FileSys) (now : String) (ri : Option Info)
    (p : String) (w : Watcher) :
    (mark_file_as_processed fs now ri false p w).disk = w.disk := rfl

theorem start_file_watcher_success_state (de mk ob : Bool) (w : Watcher)
    (h : (start_file_watcher de mk ob w).1 = true) :
    (start_file_watcher de mk ob w).2
      = { w with processed_files := dictKeys w.config.processed_files,
                 observer_running := true } := by
  simp only [start_file_watcher] at h ⊢
  by_cases h1 : w.config.input_directory = ""
  · rw [if_pos h1] at h
    exact absurd h (by simp)
  · rw [if_neg h1] at h ⊢
    by_cases h2 : de = false ∧ mk = false
    · rw [if_pos h2] at h
      exact absurd h (by simp)
    · rw [if_neg h2] at h ⊢
      cases ob
      · simp at h
      · simp

/-- Claim C4: `mark_file_as_processed` serializes the whole config document
(the full ledger) to disk before returning when the write succeeds; when the
write fails, the failure is only logged: the in-memory ledger map and the
in-memory processed set still hold the new entry for the path, the disk is
untouched, and no exception escapes (the model of the operation is total). -/
theorem C4_mark_persistence (fs : FileSys) (now : String) (ri : Option Info)
    (p : String) (w : Watcher) :
    ((mark_file_as_processed fs now ri true p w).disk
        = some (mark_file_as_processed fs now ri true p w).config) ∧
    (dictLookup
        (mark_file_as_processed fs now ri true p w).config.processed_files
        (get_file_hash fs p)
        = some (dictUpdateMany [("processed_at", now)] (ri.getD []))) ∧
    ((mark_file_as_processed fs now ri false p w).disk = w.disk) ∧
    (dictLookup
        (mark_file_as_processed fs now ri false p w).config.processed_files
        (get_file_hash fs p)
        = some (dictUpdateMany [("processed_at", now)] (ri.getD []))) ∧
    (get_file_hash fs p
        ∈ (mark_file_as_processed fs now ri false p w).processed_files) := by
  refine ⟨mark_disk_true fs now ri p w, ?_, mark_disk_false fs now ri p w, ?_, ?_⟩
  · rw [mark_config_pf]
    exact dictLookup_dictInsert_self _ _ _
  · rw [mark_config_pf]
    exact dictLookup_dictInsert_self _ _ _
  · rw [mark_processed_set]
    simp [List.mem_insert_iff]

/-- The invariant of claim C10: the in-memory duplicate-check set holds
exactly the keys of the config's processed-files ledger. -/
def set_key_inv (w : Watcher) : Prop :=
  ∀ x : String, x ∈ w.processed_files ↔ x ∈ dictKeys w.config.processed_files

/-- Claim C10: a successful `start_file_watcher` establishes the equality of
the in-memory set with the ledger's key set, and both
`mark_file_as_processed` (which adds the fingerprint to both) and
`clean_old_processed_files` (which rebuilds the set from the pruned map)
preserve it. -/
theorem C10_set_matches_ledger :
    (∀ (de mk ob : Bool) (w : Watcher),
        (start_file_watcher de mk ob w).1 = true →
        set_key_inv (start_file_watcher de mk ob w).2) ∧
    (∀ (fs : FileSys) (now : String) (ri : Option Info) (saveOk : Bool)
        (p : String) (w : Watcher), set_key_inv w →
        set_key_inv (mark_file_as_processed fs now ri saveOk p w)) ∧
    (∀ (saveOk : Bool) (m : Nat) (w : Watcher), set_key_inv w →
        set_key_inv (clean_old_processed_files saveOk m w)) := by
  refine ⟨?_, ?_, ?_⟩
  · intro de mk ob w hsucc
    rw [start_file_watcher_success_state de mk ob w hsucc]
    exact fun x => Iff.rfl
  · intro fs now ri saveOk p w hinv x
    rw [mark_processed_set, mark_config_pf]
    rw [List.mem_insert_iff, mem_dictKeys_dictInsert]
    rw [hinv x]
    tauto
  · intro saveOk m w hinv x
    simp only [clean_old_processed_files, save_config]
    split
    · exact hinv x
    · split
      · cases saveOk <;> exact Iff.rfl
      · exact hinv x

/-- A concrete freshly-constructed watcher with no config file. -/
def w_empty : Watcher := folder_watcher_init none

/-- Witness for C10: mark preserves the invariant on a concrete state. -/
theorem C10_witness :
    "x" ∈ (mark_file_as_processed fsNone "t" none true "p" w_empty).processed_files
      ↔ "x" ∈ dictKeys
          (mark_file_as_processed fsNone "t" none true "p" w_empty).config.processed_files :=
  (C10_set_matches_ledger.2.1 fsNone "t" none true "p" w_empty
    (fun x => by simp [w_empty, folder_watcher_init, load_config, default_config, dictKeys])) "x"

/-- Claim C2: once `mark_file_as_processed` has returned with its write
persisted, a new watcher constructed on the same config file and started
(`load_config`, then `start_file_watcher` rebuilding the processed set, then
`check_existing_files`) treats the path as already processed and does not
enqueue it, for every directory listing, provided the file's size reads the
same on rescan. -/
theorem C2_mark_durable_across_restart (fs fs2 : FileSys) (now : String)
    (ri : Option Info) (p : String) (w : Watcher) (de mk ob dir_exists2 : Bool)
    (listing : List String)
    (hsize : fs2.getsize p = fs.getsize p)
    (hstart : (start_file_watcher de mk ob
        (folder_watcher_init
          (mark_file_as_processed fs now ri true p w).disk)).1 = true) :
    p ∉ (check_existing_files fs2 dir_exists2 listing
        (start_file_watcher de mk ob
          (folder_watcher_init
            (mark_file_as_processed fs now ri true p w).disk)).2).file_queue := by
  intro hmem
  rw [start_file_watcher_success_state _ _ _ _ hstart] at hmem
  have hcfg : (folder_watcher_init
      (mark_file_as_processed fs now ri true p w).disk).config
      = (mark_file_as_processed fs now ri true p w).config := by
    rw [mark_disk_true]
    rfl
  have hkey : get_file_hash fs2 p
      ∈ dictKeys (folder_watcher_init
          (mark_file_as_processed fs now ri true p w).disk).config.processed_files := by
    rw [hcfg, mark_config_pf, get_file_hash_congr fs2 fs p hsize,
      mem_dictKeys_dictInsert]
    exact Or.inr rfl
  simp only [check_existing_files] at hmem
  by_cases hg : (folder_watcher_init
        (mark_file_as_processed fs now ri true p w).disk).config.input_directory = ""
      ∨ dir_exists2 = false
  · rw [if_pos] at hmem
    · exact absurd hmem (by simp [folder_watcher_init])
    · exact hg
  · rw [if_neg] at hmem
    · rcases mem_check_existing_foldl fs2 _ _ _ listing _ p hmem with h | h
      · exact absurd h (by simp [folder_watcher_init])
      · exact h.2 hkey
    · exact hg

/-- A concrete filesystem where every path is a size-7 file. -/
def fsSome : FileSys := ⟨fun _ => true, fun _ => some 7⟩

/-- A concrete watcher configured to watch directory `/d`. -/
def wD : Watcher :=
  { folder_watcher_init none with
    config := { input_directory := "/d", supported_extensions := [".mp3"],
                processed_files := [] } }

/-- Witness for C2: a marked file in `/d` is skipped after a restart. -/
theorem C2_witness :
    "/d/a.mp3" ∉ (check_existing_files fsSome true ["a.mp3"]
        (start_file_watcher true true true
          (folder_watcher_init
            (mark_file_as_processed fsSome "t" none true "/d/a.mp3" wD).disk)).2).file_queue :=
  C2_mark_durable_across_restart fsSome fsSome "t" none "/d/a.mp3" wD
    true true true true ["a.mp3"] rfl (by decide)

/-- The callback model for C5: raises on every invocation, and leaves the
watcher untouched (it marks nothing before raising). -/
def cbRaise : Option (String → Watcher → Watcher × Bool) :=
  some (fun _ w => (w, true))

/-- Claim C5: when the registered callback raises, the consumer loop catches
the exception, keeps draining every remaining item in order, and itself adds
no ledger entry for the failed path: a run over any queue with an inert
raising callback leaves the watcher state (config, ledger, set, disk)
exactly unchanged, while still dequeuing every non-duplicate item. -/
theorem C5_callback_exception_handling (fs : FileSys) (now : String)
    (saveOk : Bool) (q : List String) (w : Watcher) :
    process_file_queue_run fs cbRaise now saveOk q w
      = (w, q.filter (fun p =>
          !(decide (p ∈ w.processed_files)
            || decide (get_file_hash fs p ∈ w.processed_files)))) := by
  induction q with
  | nil => rfl
  | cons p rest ih =>
    simp only [process_file_queue_run]
    by_cases h : p ∈ w.processed_files ∨ get_file_hash fs p ∈ w.processed_files
    · rw [if_pos h, ih]
      have hp : (!(decide (p ∈ w.processed_files)
          || decide (get_file_hash fs p ∈ w.processed_files))) = false := by
        rcases h with h | h <;> simp [h]
      simp only [List.filter_cons, hp]
      simp
    · rw [if_neg h]
      have hstep : queue_step fs cbRaise now saveOk p w = w := rfl
      rw [hstep, ih]
      have hp : (!(decide (p ∈ w.processed_files)
          || decide (get_file_hash fs p ∈ w.processed_files))) = true := by
        push_neg at h
        simp [h.1, h.2]
      simp only [List.filter_cons, hp]
      simp

/-- Claim C7: the consumer loop invokes the callback exactly once per
enqueued file, in enqueue order: when no dequeued item is skipped by the
dedup re-check, the trace of callback invocations equals the queue f1..fN.
The loop is the source's single consumer thread, modelled sequentially, so
no two invocations overlap by construction. -/
theorem C7_fifo_consumption (fs : FileSys)
    (cb : Option (String → Watcher → Watcher × Bool)) (now : String)
    (saveOk : Bool) :
    ∀ (q : List String) (w : Watcher),
      noSkipsB fs cb now saveOk q w = true →
      (process_file_queue_run fs cb now saveOk q w).2 = q := by
  intro q
  induction q with
  | nil =>
    intro w _
    rfl
  | cons p rest ih =>
    intro w hns
    simp only [noSkipsB] at hns
    simp only [process_file_queue_run]
    by_cases h : p ∈ w.processed_files ∨ get_file_hash fs p ∈ w.processed_files
    · rw [if_pos h] at hns
      exact absurd hns (by simp)
    · rw [if_neg h] at hns ⊢
      simp [ih _ hns]

/-- A callback model that succeeds without touching the watcher. -/
def cbNoop : Option (String → Watcher → Watcher × Bool) :=
  some (fun _ w => (w, false))

/-- Witness for C7: two fresh files are consumed in enqueue order. -/
theorem C7_witness :
    (process_file_queue_run fsNone cbNoop "t" true ["a", "b"] w_empty).2
      = ["a", "b"] :=
  C7_fifo_consumption fsNone cbNoop "t" true ["a", "b"] w_empty (by decide)

theorem clean_input_dir (saveOk : Bool) (m : Nat) (w : Watcher) :
    (clean_old_processed_files saveOk m w).config.input_directory
      = w.config.input_directory := by
  simp only [clean_old_processed_files, save_config]
  split
  · rfl
  · split
    · cases saveOk <;> rfl
    · rfl

theorem start_file_watcher_fail (de mk ob : Bool) (w : Watcher)
    (hfail : w.config.input_directory = ""
      ∨ (de = false ∧ mk = false) ∨ ob = false) :
    (start_file_watcher de mk ob w).1 = false := by
  simp only [start_file_watcher]
  by_cases h1 : w.config.input_directory = ""
  · rw [if_pos h1]
  · rw [if_neg h1]
    by_cases h2 : de = false ∧ mk = false
    · rw [if_pos h2]
    · rw [if_neg h2]
      have hob : ob = false := by tauto
      rw [hob]
      simp

/-- Claim C8: `start` returns `false` whenever the input directory is unset,
cannot be created, or the observer fails to start; and in every such failure
case the returned state has gone through `stop`: consumer thread stopped,
observer stopped, stop flag set — no partially running session (the consumer
thread polls the stop flag with a bounded queue wait, so its cooperative
join is modelled as completing). -/
theorem C8_start_failure_stops_all (fs : FileSys)
    (de mk ob saveOk : Bool) (listing : List String) (w : Watcher)
    (hfail : w.config.input_directory = ""
      ∨ (de = false ∧ mk = false) ∨ ob = false) :
    (start fs de mk ob saveOk listing w).1 = false
      ∧ (start fs de mk ob saveOk listing w).2.thread_running = false
      ∧ (start fs de mk ob saveOk listing w).2.observer_running = false
      ∧ (start fs de mk ob saveOk listing w).2.should_stop = true := by
  have hfail1 : ({ clean_old_processed_files saveOk 1000 w with
        should_stop := false, thread_running := true } : Watcher).config.input_directory = ""
      ∨ (de = false ∧ mk = false) ∨ ob = false := by
    rcases hfail with h | h
    · exact Or.inl (by simpa [clean_input_dir] using h)
    · exact Or.inr h
  have hf := start_file_watcher_fail de mk ob _ hfail1
  simp only [start, hf, stop]
  simp

/-- Witness for C8: starting with an uncreatable watch directory fails and
leaves nothing running. -/
theorem C8_witness :
    (start fsNone false false true true [] wD).1 = false
      ∧ (start fsNone false false true true [] wD).2.thread_running = false
      ∧ (start fsNone false false true true [] wD).2.observer_running = false
      ∧ (start fsNone false false true true [] wD).2.should_stop = true :=
  C8_start_failure_stops_all fsNone false false true true [] wD
    (Or.inr (Or.inl ⟨rfl, rfl⟩))

/-! ### Claim C3: pruning bound -/

theorem markMany_length (now : String) (saveOk : Bool) :
    ∀ (ps : List String) (w : Watcher), ps.Nodup →
      (∀ p ∈ ps, p ∉ dictKeys w.config.processed_files) →
      ((markMany fsNone now saveOk ps w).config.processed_files).length
        = w.config.processed_files.length + ps.length := by
  intro ps
  induction ps with
  | nil =>
    intro w _ _
    simp [markMany]
  | cons p rest ih =>
    intro w hnd hfresh
    have hcons : markMany fsNone now saveOk (p :: rest) w
        = markMany fsNone now saveOk rest
            (mark_file_as_processed fsNone now none saveOk p w) := rfl
    have hp : get_file_hash fsNone p = p := rfl
    have hkeys : dictKeys
        (mark_file_as_processed fsNone now none saveOk p w).config.processed_files
        = dictKeys w.config.processed_files ++ [p] := by
      rw [mark_config_pf, hp]
      exact dictKeys_dictInsert_of_not_mem _ _ _ (hfresh p (by simp))
    have hlen : (mark_file_as_processed fsNone now none saveOk p w).config.processed_files.length
        = w.config.processed_files.length + 1 := by
      rw [mark_config_pf, hp, dictInsert_length, if_neg (hfresh p (by simp))]
    have hfresh2 : ∀ x ∈ rest, x ∉ dictKeys
        (mark_file_as_processed fsNone now none saveOk p w).config.processed_files := by
      intro x hx
      rw [hkeys]
      intro hc
      rcases List.mem_append.mp hc with hc | hc
      · exact hfresh x (by simp [hx]) hc
      · have hxp : x = p := by simpa using hc
        exact (List.nodup_cons.mp hnd).1 (hxp ▸ hx)
    rw [hcons, ih _ (List.nodup_cons.mp hnd).2 hfresh2, hlen]
    simp only [List.length_cons]
    omega

/-- Counterexample to claim C3 as stated: the ledger is NOT bounded by the
configured maximum under insertion — `mark_file_as_processed` never prunes
(`clean_old_processed_files` is invoked only from `start`), so marking 1001
distinct files drives the ledger to 1001 entries, exceeding the configured
default maximum of 1000. -/
theorem C3_counterexample :
    1000 < ((markMany fsNone "t" true
        ((List.range 1001).map (fun i => "q" ++ natRepr i))
        w_empty).config.processed_files).length := by
  have hinj : Function.Injective (fun i : Nat => "q" ++ natRepr i) := by
    intro a b h
    apply natRepr_injective
    have hd := congrArg String.data h
    simp only [String.data_append] at hd
    exact String.ext (by simpa using hd)
  have hnd : ((List.range 1001).map (fun i => "q" ++ natRepr i)).Nodup :=
    List.Nodup.map hinj (List.nodup_range 1001)
  have hfresh : ∀ p ∈ (List.range 1001).map (fun i => "q" ++ natRepr i),
      p ∉ dictKeys w_empty.config.processed_files := by
    intro p _
    simp [w_empty, folder_watcher_init, load_config, default_config, dictKeys]
  rw [markMany_length "t" true _ _ hnd hfresh]
  simp [w_empty, folder_watcher_init, load_config, default_config]

theorem clean_pruned_pf (saveOk : Bool) (m : Nat) (w : Watcher)
    (hm : m < w.config.processed_files.length) :
    (clean_old_processed_files saveOk m w).config.processed_files
      = (w.config.processed_files.mergeSort tsGe).take m := by
  have hne : ¬ w.config.processed_files = [] := by
    intro h
    rw [h] at hm
    simp at hm
  simp only [clean_old_processed_files, save_config]
  rw [if_neg hne, if_pos hm]
  cases saveOk <;> rfl

theorem clean_not_pruned (saveOk : Bool) (m : Nat) (w : Watcher)
    (hm : ¬ m < w.config.processed_files.length) :
    clean_old_processed_files saveOk m w = w := by
  simp only [clean_old_processed_files]
  by_cases hne : w.config.processed_files = []
  · rw [if_pos hne]
  · rw [if_neg hne, if_neg hm]

theorem tsGe_trans : ∀ a b c : String × Info,
    tsGe a b = true → tsGe b c = true → tsGe a c = true := by
  intro a b c hab hbc
  simp only [tsGe, decide_eq_true_eq] at hab hbc ⊢
  exact le_trans hbc hab

theorem tsGe_total : ∀ a b : String × Info, (tsGe a b || tsGe b a) = true := by
  intro a b
  simp only [tsGe, Bool.or_eq_true, decide_eq_true_eq]
  exact le_total _ _

/-- Claim C3 (amended): every run of `clean_old_processed_files` leaves the
ledger with at most `max_entries` entries; when it actually prunes, the
result holds exactly `max_entries` entries drawn from the original ledger,
every retained entry's `processed_at` timestamp is at least that of every
dropped entry, the pruned config is persisted (shown for a successful
write), and the in-memory set is rebuilt as the pruned ledger's key set.
The bound is enforced only when `clean_old_processed_files` runs (from
`start`): `mark_file_as_processed` never prunes, so the ledger can exceed
the maximum between cleanups — see the counterexample. -/
theorem C3_clean_bound_and_retention (saveOk : Bool) (m : Nat) (w : Watcher) :
    ((clean_old_processed_files saveOk m w).config.processed_files.length ≤ m
        ∨ (clean_old_processed_files saveOk m w).config.processed_files.length
            = w.config.processed_files.length)
      ∧ (m < w.config.processed_files.length →
          (clean_old_processed_files saveOk m w).config.processed_files.length = m)
      ∧ (m < w.config.processed_files.length →
          ∀ a ∈ (clean_old_processed_files saveOk m w).config.processed_files,
            a ∈ w.config.processed_files)
      ∧ (m < w.config.processed_files.length →
          ∀ a ∈ (clean_old_processed_files saveOk m w).config.processed_files,
          ∀ b ∈ w.config.processed_files,
            b ∉ (clean_old_processed_files saveOk m w).config.processed_files →
            tsGe a b = true)
      ∧ (m < w.config.processed_files.length →
          (clean_old_processed_files true m w).disk
            = some (clean_old_processed_files true m w).config)
      ∧ (m < w.config.processed_files.length →
          (clean_old_processed_files saveOk m w).processed_files
            = dictKeys (clean_old_processed_files saveOk m w).config.processed_files) := by
  by_cases hm : m < w.config.processed_files.length
  case neg =>
    rw [clean_not_pruned saveOk m w hm]
    refine ⟨Or.inr rfl, ?_, ?_, ?_, ?_, ?_⟩ <;> intro h <;> exact absurd h hm
  case pos =>
    have hperm := List.mergeSort_perm w.config.processed_files tsGe
    have hlen : (w.config.processed_files.mergeSort tsGe).length
        = w.config.processed_files.length := hperm.length_eq
    have hsort := List.sorted_mergeSort tsGe_trans tsGe_total w.config.processed_files
    refine ⟨?_, ?_, ?_, ?_, ?_, ?_⟩
    · rw [clean_pruned_pf saveOk m w hm, List.length_take]
      exact Or.inl (min_le_left _ _)
    · intro _
      rw [clean_pruned_pf saveOk m w hm, List.length_take, hlen]
      exact min_eq_left (le_of_lt hm)
    · intro _ a ha
      rw [clean_pruned_pf saveOk m w hm] at ha
      exact hperm.mem_iff.mp (List.mem_of_mem_take ha)
    · intro _ a ha b hb hbn
      rw [clean_pruned_pf saveOk m w hm] at ha hbn
      have hbs : b ∈ w.config.processed_files.mergeSort tsGe := hperm.mem_iff.mpr hb
      rw [← List.take_append_drop m (w.config.processed_files.mergeSort tsGe)] at hsort hbs
      have hcross := (List.pairwise_append.mp hsort).2.2
      rcases List.mem_append.mp hbs with hbt | hbd
      · exact absurd hbt hbn
      · exact hcross a ha b hbd
    · intro _
      have hne : ¬ w.config.processed_files = [] := by
        intro h
        rw [h] at hm
        simp at hm
      simp only [clean_old_processed_files, save_config]
      rw [if_neg hne, if_pos hm]
      simp
    · intro _
      have hne : ¬ w.config.processed_files = [] := by
        intro h
        rw [h] at hm
        simp at hm
      simp only [clean_old_processed_files, save_config]
      rw [if_neg hne, if_pos hm]

/-- A concrete watcher whose ledger has three timestamped entries. -/
def w3 : Watcher :=
  { folder_watcher_init none with
    config := { input_directory := "/d"
                supported_extensions := []
                processed_files :=
                  [("h1", [("processed_at", "2024-01-01")]),
                   ("h2", [("processed_at", "2024-03-01")]),
                   ("h3", [("processed_at", "2024-02-01")])] } }

/-- Witness for the amended C3: pruning three entries down to a maximum of
two leaves exactly two. -/
theorem C3_witness :
    ((clean_old_processed_files true 2 w3).config.processed_files).length = 2 :=
  (C3_clean_bound_and_retention true 2 w3).2.1 (by decide)

end Koemoji
